import Mathlib

/-!
# Verification of the Data-Analysis-Agent core

A shallow embedding, in Lean 4, of the versioned-artifact-memory core of the
repository: `src/memory/store.py` (MemoryStore), the version/ingestion helpers
of `src/api/app.py`, the drift machinery of `src/analysis/schema_engine.py`,
and the insight-synthesis layer of `src/reasoning/insight_reasoner.py`.

Modelling conventions, used consistently below:

* Python `str` is modelled as `List Char` (`PyStr`).  All string operations
  (strip, lower, sort, startswith, slicing) are re-implemented structurally so
  that concrete runs reduce inside the kernel.
* Python `float` is modelled as `ℚ` (exact arithmetic at the literals the code
  compares against); `int` as `ℤ` or `Nat`.  The float literal `1e-10` is the
  exact rational `10⁻¹⁰`.
* Python `dict` is modelled as an association list.  Assignment purges the old
  binding and appends the new one; CPython instead keeps the original position
  on overwrite, but no observable behaviour of the store depends on the
  iteration position of an overwritten key.
* `math.sqrt` / `np.linalg.norm` are modelled by `ratSqrt`, an exact rational
  square root (componentwise `Nat.sqrt` of numerator and denominator).  It
  agrees with real square root on perfect squares, which is the only place any
  theorem below evaluates it.
* External effects (SHA-256, `json.loads`, the LLM client, prompt compression)
  are parameters of the embedded functions: the code treats them as opaque
  deterministic (or oracle-supplied) values, and every theorem below
  quantifies over them.
-/

/-! ## Python strings as lists of characters -/

abbrev PyStr := List Char

/-- Coerce a Lean string literal to the `PyStr` model. -/
def pys (s : String) : PyStr := s.data

/-- Lexicographic (code-point) strict order on strings, as Python compares
`str` values. -/
def lexLt : PyStr → PyStr → Bool
  | [], [] => false
  | [], _ :: _ => true
  | _ :: _, [] => false
  | a :: as, b :: bs => if a < b then true else if b < a then false else lexLt as bs

/-- Insert into an ascending list, keeping earlier equal elements first
(stable, as Python `list.sort`). -/
def insertSorted (x : PyStr) : List PyStr → List PyStr
  | [] => [x]
  | y :: ys => if lexLt y x then y :: insertSorted x ys else x :: y :: ys

/-- Ascending stable sort of strings: the model of Python `list.sort()`. -/
def sortStrings (l : List PyStr) : List PyStr := l.foldr insertSorted []

/-- Python `str.strip()`: drop whitespace from both ends. -/
def trimWS (l : PyStr) : PyStr :=
  ((l.dropWhile Char.isWhitespace).reverse.dropWhile Char.isWhitespace).reverse

/-- One digit character. -/
def digitChar (n : Nat) : Char := Char.ofNat (48 + n % 10)

/-- Decimal digits of a natural number (fuel-based so it reduces in the
kernel); the model of Python `f"{n}"`. -/
def natReprGo : Nat → Nat → List Char → List Char
  | 0, _, acc => acc
  | fuel + 1, n, acc =>
    if n < 10 then digitChar n :: acc else natReprGo fuel (n / 10) (digitChar n :: acc)

/-- Decimal representation of a natural number. -/
def natRepr (n : Nat) : PyStr := natReprGo (n + 1) n []

/-- Value of a string of decimal digits, the model of Python `int(s)` on an
all-digit string. -/
def digitsToNat (l : PyStr) : Nat := l.foldl (fun acc c => acc * 10 + (c.toNat - 48)) 0

/-- Exact rational square root: `Nat.sqrt` on numerator and denominator.  On a
square of a nonnegative rational it coincides with the real square root
(`ratSqrt_mul_self` below), which is the only point where the development
evaluates it; it is the model of `math.sqrt` / `np.linalg.norm`. -/
def ratSqrt (q : ℚ) : ℚ := (Nat.sqrt q.num.toNat : ℚ) / (Nat.sqrt q.den : ℚ)

/-- Dot product of rational vectors, the model of `np.dot`. -/
def dotQ (a b : List ℚ) : ℚ := (List.zipWith (· * ·) a b).sum

/-- Arithmetic mean, the model of `np.mean` on a nonempty list. -/
def qMean (l : List ℚ) : ℚ := l.sum / (l.length : ℚ)

/-! ## `src/memory/store.py` -/

/-- `StoredSchema` dataclass. -/
structure StoredSchema where
  dataset_id : PyStr
  version : PyStr
  file_hash : PyStr
  compressed_schema_json : PyStr
deriving DecidableEq

/-- `StoredAnalysis` dataclass. -/
structure StoredAnalysis where
  dataset_id : PyStr
  version : PyStr
  analysis_result : PyStr
  created_at : PyStr
deriving DecidableEq

/-- `StoredInsight` dataclass. -/
structure StoredInsight where
  insight_id : PyStr
  dataset_id : PyStr
  version : PyStr
  summary : PyStr
  confidence : ℚ
  semantic_hash : PyStr
deriving DecidableEq

/-- `QueryCacheEntry` dataclass. -/
structure QueryCacheEntry where
  query_hash : PyStr
  dataset_id : PyStr
  response : PyStr
  created_at : PyStr
deriving DecidableEq

/-- The in-memory state of `MemoryStore`: the four dict-backed indexes plus
the per-dataset insight lists.  Persistence is modelled by
`store_save`/`store_load` below. -/
structure MemoryStore where
  schemas : List StoredSchema
  analyses : List StoredAnalysis
  insights_by_dataset : List (PyStr × List StoredInsight)
  insight_semantic_index : List ((PyStr × PyStr) × PyStr)
  query_cache : List QueryCacheEntry
deriving DecidableEq

/-- A freshly constructed store with no persisted snapshot. -/
def emptyStore : MemoryStore := ⟨[], [], [], [], []⟩

/-- Key of a schema record: `(dataset_id, version)`. -/
def schemaKey (s : StoredSchema) : PyStr × PyStr := (s.dataset_id, s.version)

/-- Key of an analysis record: `(dataset_id, version)`. -/
def analysisKey (a : StoredAnalysis) : PyStr × PyStr := (a.dataset_id, a.version)

/-- Key of a query-cache record: `(dataset_id, query_hash)`. -/
def queryKey (q : QueryCacheEntry) : PyStr × PyStr := (q.dataset_id, q.query_hash)

/-- Dict assignment `m[key(v)] = v`: purge the key, append the binding. -/
def upsert {α κ : Type} [DecidableEq κ] (key : α → κ) (m : List α) (v : α) : List α :=
  m.filter (fun x => key x ≠ key v) ++ [v]

/-- Dict lookup `m.get(k)`. -/
def lookupBy {α κ : Type} [DecidableEq κ] (key : α → κ) (m : List α) (k : κ) : Option α :=
  m.find? (fun x => key x = k)

/-- `MemoryStore.save_schema`. -/
def save_schema (st : MemoryStore) (s : StoredSchema) : MemoryStore :=
  { st with schemas := upsert schemaKey st.schemas s }

/-- `MemoryStore.get_schema`. -/
def get_schema (st : MemoryStore) (dataset_id version : PyStr) : Option StoredSchema :=
  lookupBy schemaKey st.schemas (dataset_id, version)

/-- `MemoryStore.list_versions`: the versions of the dataset, in the
lexicographic order of Python `list.sort()`. -/
def list_versions (st : MemoryStore) (dataset_id : PyStr) : List PyStr :=
  sortStrings (st.schemas.filterMap
    (fun s => if s.dataset_id = dataset_id then some s.version else none))

/-- `MemoryStore.save_analysis`. -/
def save_analysis (st : MemoryStore) (a : StoredAnalysis) : MemoryStore :=
  { st with analyses := upsert analysisKey st.analyses a }

/-- `MemoryStore.get_analysis`. -/
def get_analysis (st : MemoryStore) (dataset_id version : PyStr) : Option StoredAnalysis :=
  lookupBy analysisKey st.analyses (dataset_id, version)

/-- `MemoryStore.has_analysis`. -/
def has_analysis (st : MemoryStore) (dataset_id version : PyStr) : Bool :=
  (lookupBy analysisKey st.analyses (dataset_id, version)).isSome

/-- `MemoryStore.insight_exists`: membership in the semantic index. -/
def insight_exists (st : MemoryStore) (semantic_hash dataset_id : PyStr) : Bool :=
  (lookupBy Prod.fst st.insight_semantic_index (dataset_id, semantic_hash)).isSome

/-- `self._insights_by_dataset.setdefault(ds, []).append(i)`. -/
def appendInsightToDataset (m : List (PyStr × List StoredInsight)) (ds : PyStr)
    (i : StoredInsight) : List (PyStr × List StoredInsight) :=
  if m.any (fun p => p.1 = ds) then
    m.map (fun p => if p.1 = ds then (p.1, p.2 ++ [i]) else p)
  else m ++ [(ds, [i])]

/-- `MemoryStore.save_insight`: first-write-wins keyed on
`(dataset_id, semantic_hash)`. -/
def save_insight (st : MemoryStore) (i : StoredInsight) : MemoryStore :=
  if (lookupBy Prod.fst st.insight_semantic_index (i.dataset_id, i.semantic_hash)).isSome then
    st
  else
    { st with
      insight_semantic_index :=
        upsert Prod.fst st.insight_semantic_index ((i.dataset_id, i.semantic_hash), i.insight_id),
      insights_by_dataset := appendInsightToDataset st.insights_by_dataset i.dataset_id i }

/-- `MemoryStore.list_insights`. -/
def list_insights (st : MemoryStore) (dataset_id : PyStr) : List StoredInsight :=
  ((st.insights_by_dataset.find? (fun p => p.1 = dataset_id)).map Prod.snd).getD []

/-- `MemoryStore.get_cached_query`. -/
def get_cached_query (st : MemoryStore) (query_hash dataset_id : PyStr) : Option QueryCacheEntry :=
  lookupBy queryKey st.query_cache (dataset_id, query_hash)

/-- `MemoryStore.save_cached_query`; `created_at` (Python `datetime.now()`)
is passed in by the caller of the model. -/
def save_cached_query (st : MemoryStore) (query_hash dataset_id response created_at : PyStr) :
    MemoryStore :=
  { st with query_cache := upsert queryKey st.query_cache ⟨query_hash, dataset_id, response, created_at⟩ }

/-- The JSON snapshot payload written by `MemoryStore._save`: four flat arrays
of records.  The JSON text encoding itself is the identity on these flat
string/rational records and is not modelled further. -/
structure StorePayload where
  schemas : List StoredSchema
  analyses : List StoredAnalysis
  insights : List StoredInsight
  query_cache : List QueryCacheEntry
deriving DecidableEq

/-- `MemoryStore._flatten_insights`. -/
def flatten_insights (st : MemoryStore) : List StoredInsight :=
  (st.insights_by_dataset.map Prod.snd).flatten

/-- `MemoryStore._save`: serialize every index into the snapshot payload. -/
def store_save (st : MemoryStore) : StorePayload :=
  ⟨st.schemas, st.analyses, flatten_insights st, st.query_cache⟩

/-- `MemoryStore._load`: clear all state and rebuild each index from the
snapshot payload, in payload order. -/
def store_load (p : StorePayload) : MemoryStore :=
  { schemas := p.schemas.foldl (upsert schemaKey) []
    analyses := p.analyses.foldl (upsert analysisKey) []
    insights_by_dataset :=
      p.insights.foldl (fun m i => appendInsightToDataset m i.dataset_id i) []
    insight_semantic_index :=
      p.insights.foldl
        (fun m i => upsert Prod.fst m ((i.dataset_id, i.semantic_hash), i.insight_id)) []
    query_cache := p.query_cache.foldl (upsert queryKey) [] }

/-! ## `src/api/app.py`: version helpers and the `/ingest` route -/

/-- `_parse_vnum`: numeric suffix of a `vN` tag, else 0. -/
def parse_vnum (v : PyStr) : Nat :=
  if v = [] then 0
  else
    match (trimWS v).map Char.toLower with
    | [] => 0
    | c :: rest =>
      if c = 'v' ∧ rest ≠ [] ∧ rest.all Char.isDigit then digitsToNat rest else 0

/-- The tag `f"v{n}"`. -/
def vTag (n : Nat) : PyStr := 'v' :: natRepr n

/-- `_next_version`: `v1` if no versions exist, else `v(max numeric suffix + 1)`. -/
def next_version (existing_versions : List PyStr) : PyStr :=
  if existing_versions = [] then vTag 1
  else vTag ((existing_versions.map parse_vnum).foldl max 0 + 1)

/-- `_latest_version`: highest numeric tag when any tag parses, else the
lexicographically last tag. -/
def latest_version (existing_versions : List PyStr) : Option PyStr :=
  if existing_versions = [] then none
  else
    let with_nums := existing_versions.map (fun v => (v, parse_vnum v))
    if with_nums.any (fun t => 0 < t.2) then
      (with_nums.foldl (fun best t => if best.2 < t.2 then t else best) (pys "", 0)).1
    else (sortStrings existing_versions).getLast? |>.getD []

/-- `_find_version_by_hash`: first listed version whose stored schema carries
this file hash. -/
def find_version_by_hash (st : MemoryStore) (dataset_id file_hash : PyStr) : Option PyStr :=
  (list_versions st dataset_id).find?
    (fun v =>
      match get_schema st dataset_id v with
      | some s => decide (s.file_hash = file_hash)
      | none => false)

/-- The `/ingest` response body. -/
structure IngestResponse where
  dataset_id : PyStr
  version : PyStr
  file_hash : PyStr
  cached : Bool
deriving DecidableEq

/-- The `/ingest` route body, after file resolution: `file_hash` is the
SHA-256 of the file bytes and `schema_json` the (deterministic) compressed
schema the schema engine extracts from those same bytes — so re-ingesting
identical content supplies the same `file_hash`.  The extracted schema
records the same hash, since both hash the same file. -/
def ingest (st : MemoryStore) (dataset_id file_hash schema_json : PyStr) :
    MemoryStore × IngestResponse :=
  match find_version_by_hash st dataset_id file_hash with
  | some v => (st, ⟨dataset_id, v, file_hash, true⟩)
  | none =>
    let version := next_version (list_versions st dataset_id)
    (save_schema st ⟨dataset_id, version, file_hash, schema_json⟩,
     ⟨dataset_id, version, file_hash, false⟩)

/-- A sequence of `/ingest` calls on one dataset; each pair is the content
hash and the extracted schema JSON of one upload.  Returns the final store
and the versions in assignment order. -/
def ingest_seq (st : MemoryStore) (dataset_id : PyStr) :
    List (PyStr × PyStr) → MemoryStore × List PyStr
  | [] => (st, [])
  | (h, sj) :: rest =>
    let step := ingest st dataset_id h sj
    let tail := ingest_seq step.1 dataset_id rest
    (tail.1, step.2.version :: tail.2)

/-- The schema records a prefix of uploads leaves in the store: the i-th
upload sits under version `v(i+1)`. -/
def schemasFor (d : PyStr) (done : List (PyStr × PyStr)) : List StoredSchema :=
  done.enum.map (fun p => ⟨d, vTag (p.1 + 1), p.2.1, p.2.2⟩)

/-- The store state after ingesting `done` into an empty store. -/
def storeFor (d : PyStr) (done : List (PyStr × PyStr)) : MemoryStore :=
  { emptyStore with schemas := schemasFor d done }

/-! ## `src/analysis/schema_engine.py` -/

/-- `ColumnSchema` dataclass. -/
structure ColumnSchema where
  name : PyStr
  dtype : PyStr
  null_percentage : ℚ
  cardinality : ℤ
  unique_ratio : ℚ
  mean : Option ℚ := none
  median : Option ℚ := none
  std : Option ℚ := none
  min : Option (ℚ ⊕ PyStr) := none
  max : Option (ℚ ⊕ PyStr) := none
  top_values : Option (List (PyStr × ℤ)) := none
  histogram_bins : Option (List ℚ) := none
  histogram_counts : Option (List ℤ) := none
deriving DecidableEq

/-- `DatasetSchema` dataclass; `columns` is the column dict in insertion
order. -/
structure DatasetSchema where
  dataset_id : PyStr
  version : PyStr
  file_path : PyStr
  file_hash : PyStr
  row_count : ℤ
  column_count : ℤ
  created_at : PyStr
  columns : List (PyStr × ColumnSchema)
deriving DecidableEq

/-- `SchemaDrift` dataclass; the three change dicts are association lists. -/
structure SchemaDrift where
  added_columns : List PyStr
  removed_columns : List PyStr
  type_changes : List (PyStr × (PyStr × PyStr))
  null_percentage_changes : List (PyStr × (ℚ × ℚ))
  cardinality_changes : List (PyStr × (ℤ × ℤ))
deriving DecidableEq

/-- `SchemaDrift.has_drift`. -/
def SchemaDrift.has_drift (d : SchemaDrift) : Bool :=
  decide (0 < d.added_columns.length) || decide (0 < d.removed_columns.length) ||
  decide (0 < d.type_changes.length) || decide (0 < d.null_percentage_changes.length) ||
  decide (0 < d.cardinality_changes.length)

/-- `DistributionDrift` dataclass. -/
structure DistributionDrift where
  column_name : PyStr
  ks_statistic : Option ℚ := none
  chi2_statistic : Option ℚ := none
  p_value : Option ℚ := none
  mean_shift : Option ℚ := none
  std_shift : Option ℚ := none
  similarity_score : ℚ := 1
deriving DecidableEq

/-- `DistributionDrift.has_significant_drift`. -/
def DistributionDrift.has_significant_drift (d : DistributionDrift)
    (p_threshold : ℚ := 0.05) : Bool :=
  match d.p_value with
  | none => false
  | some p => decide (p < p_threshold) && decide (d.similarity_score < 0.8)

/-- `DriftReport` dataclass. -/
structure DriftReport where
  base_version : PyStr
  compare_version : PyStr
  schema_drift : SchemaDrift
  distribution_drifts : List (PyStr × DistributionDrift)
  overall_drift_score : ℚ
deriving DecidableEq

/-- `DriftReport.has_drift`. -/
def DriftReport.has_drift (r : DriftReport) : Bool :=
  r.schema_drift.has_drift || r.distribution_drifts.any (fun p => p.2.has_significant_drift)

/-- `schema.columns[col]` as a lookup in the column dict. -/
def lookupColumn (cols : List (PyStr × ColumnSchema)) (name : PyStr) : Option ColumnSchema :=
  (cols.find? (fun p => p.1 = name)).map Prod.snd

/-- `schema.columns.keys()`. -/
def columnNames (s : DatasetSchema) : List PyStr := s.columns.map Prod.fst

/-- `SchemaEngine.detect_schema_drift`.  Python iterates over `set`s of
column names; sets are modelled as deduplicated key lists (membership, the
only property the claims use, is unchanged). -/
def detect_schema_drift (base_schema compare_schema : DatasetSchema) : SchemaDrift :=
  let base_cols := (columnNames base_schema).dedup
  let compare_cols := (columnNames compare_schema).dedup
  let added_columns := compare_cols.filter (fun c => c ∉ base_cols)
  let removed_columns := base_cols.filter (fun c => c ∉ compare_cols)
  let common_columns := base_cols.filter (fun c => c ∈ compare_cols)
  let type_changes := common_columns.filterMap (fun col =>
    match lookupColumn base_schema.columns col, lookupColumn compare_schema.columns col with
    | some base_col, some compare_col =>
      if base_col.dtype ≠ compare_col.dtype then
        some (col, (base_col.dtype, compare_col.dtype))
      else none
    | _, _ => none)
  let null_percentage_changes := common_columns.filterMap (fun col =>
    match lookupColumn base_schema.columns col, lookupColumn compare_schema.columns col with
    | some base_col, some compare_col =>
      if |base_col.null_percentage - compare_col.null_percentage| > 5.0 then
        some (col, (base_col.null_percentage, compare_col.null_percentage))
      else none
    | _, _ => none)
  let cardinality_changes := common_columns.filterMap (fun col =>
    match lookupColumn base_schema.columns col, lookupColumn compare_schema.columns col with
    | some base_col, some compare_col =>
      if 0 < base_col.cardinality then
        let card_ratio : ℚ := (compare_col.cardinality : ℚ) / (base_col.cardinality : ℚ)
        if card_ratio < 0.8 ∨ card_ratio > 1.2 then
          some (col, (base_col.cardinality, compare_col.cardinality))
        else none
      else none
    | _, _ => none)
  ⟨added_columns, removed_columns, type_changes, null_percentage_changes, cardinality_changes⟩

/-- `SchemaEngine.detect_distribution_drift` on the no-dataframe path (the
`/compare` route passes `base_df=None, compare_df=None`, so the KS/χ² tests
are skipped and `p_value` stays `None`).  Returns `none` where Python raises
`ValueError` (column missing from either schema). -/
def detect_distribution_drift (base_schema compare_schema : DatasetSchema)
    (column_name : PyStr) : Option DistributionDrift :=
  match lookupColumn base_schema.columns column_name,
        lookupColumn compare_schema.columns column_name with
  | some base_col, some compare_col =>
    let similarity_score : ℚ :=
      match base_col.histogram_bins, compare_col.histogram_bins with
      | some bb, some cb =>
        if bb ≠ [] ∧ cb ≠ [] then
          let base_counts := (base_col.histogram_counts.getD []).map (fun n : ℤ => (n : ℚ))
          let compare_counts := (compare_col.histogram_counts.getD []).map (fun n : ℤ => (n : ℚ))
          if base_counts ≠ [] ∧ compare_counts ≠ [] then
            let base_norm := base_counts.map (fun x => x / (base_counts.sum + 1e-10))
            let compare_norm := compare_counts.map (fun x => x / (compare_counts.sum + 1e-10))
            dotQ base_norm compare_norm /
              (ratSqrt (dotQ base_norm base_norm) * ratSqrt (dotQ compare_norm compare_norm)
                + 1e-10)
          else 1
        else 1
      | _, _ => 1
    let mean_shift :=
      match base_col.mean, compare_col.mean with
      | some a, some b => some (b - a)
      | _, _ => none
    let std_shift :=
      match base_col.std, compare_col.std with
      | some a, some b => some (b - a)
      | _, _ => none
    some ⟨column_name, none, none, none, mean_shift, std_shift, similarity_score⟩
  | _, _ => none

/-- `SchemaEngine.generate_drift_report` on the no-dataframe path. -/
def generate_drift_report (base_schema compare_schema : DatasetSchema) : DriftReport :=
  let schema_drift := detect_schema_drift base_schema compare_schema
  let common_columns :=
    ((columnNames base_schema).dedup).filter (fun c => c ∈ (columnNames compare_schema).dedup)
  let distribution_drifts := common_columns.filterMap (fun col =>
    (detect_distribution_drift base_schema compare_schema col).map (fun d => (col, d)))
  let drift_components : List ℚ :=
    (if 0 < base_schema.columns.length then
      [(schema_drift.added_columns.length : ℚ) / (base_schema.columns.length : ℚ),
       (schema_drift.removed_columns.length : ℚ) / (base_schema.columns.length : ℚ),
       (schema_drift.type_changes.length : ℚ) / (base_schema.columns.length : ℚ)]
     else []) ++
    (if distribution_drifts ≠ [] then
      [1 - qMean (distribution_drifts.map (fun p => p.2.similarity_score))]
     else [])
  let overall_drift_score := if drift_components ≠ [] then qMean drift_components else 0
  ⟨base_schema.version, compare_schema.version, schema_drift, distribution_drifts,
   overall_drift_score⟩

/-! ## `src/reasoning/insight_reasoner.py` -/

/-- Python/JSON values as returned by `json.loads`. -/
inductive JVal where
  | null : JVal
  | bool (b : Bool) : JVal
  | num (q : ℚ) : JVal
  | str (s : PyStr) : JVal
  | arr (elems : List JVal) : JVal
  | obj (fields : List (PyStr × JVal)) : JVal

/-- `Insight` dataclass of the reasoner. -/
structure Insight where
  insight_id : PyStr
  title : PyStr
  technical_summary : PyStr
  business_impact : PyStr
  confidence : ℚ
  semantic_hash : PyStr
deriving DecidableEq

/-- The `LLMClient` protocol: `complete(prompt, temperature)` and an optional
`embed` (absent = `None`). -/
structure LLMClient where
  complete : PyStr → ℚ → PyStr
  embed : List PyStr → Option (List (List ℚ))

/-- `InsightReasoner` construction state.  `compression_client` returning
`none` models `compress` raising (caught, falls back to the original
prompt). -/
structure InsightReasoner where
  llm : LLMClient
  max_new_insights : Nat := 8
  temperature : ℚ := 0.2
  embedding_similarity_threshold : ℚ := 0.88
  compression_client : Option (PyStr → Option PyStr) := none

/-- `InsightReasoner._maybe_compress_prompt`. -/
def maybe_compress_prompt (r : InsightReasoner) (prompt : PyStr) : PyStr :=
  match r.compression_client with
  | none => prompt
  | some compress => (compress prompt).getD prompt

/-- Whitespace-run collapsing (`re.sub(r"\s+", " ", ·)`); the flag records
whether the previous character was whitespace. -/
def collapseWS : Bool → PyStr → PyStr
  | _, [] => []
  | prevWS, c :: cs =>
    if c.isWhitespace then
      if prevWS then collapseWS true cs else ' ' :: collapseWS true cs
    else c :: collapseWS false cs

/-- `InsightReasoner._normalize_text`: strip, lowercase, collapse whitespace
runs, drop everything but word characters, whitespace and hyphens (ASCII
reading of the `\w` class). -/
def normalize_text (text : PyStr) : PyStr :=
  let t := (trimWS text).map Char.toLower
  (collapseWS false t).filter (fun c => c.isAlphanum || c = '_' || c = ' ' || c = '-')

/-- `InsightReasoner.semantic_hash`: SHA-256 (the parameter `sha`) of the
normalized dedup key. -/
def semantic_hash (sha : PyStr → PyStr) (dedup_key : PyStr) : PyStr :=
  sha (normalize_text dedup_key)

/-- `InsightReasoner.insight_id`: first 16 hex chars of the SHA-256 of
`f"{dataset_id}|{version}|{semantic_hash}"`. -/
def insight_id_of (sha : PyStr → PyStr) (dataset_id version semhash : PyStr) : PyStr :=
  (sha (dataset_id ++ pys "|" ++ version ++ pys "|" ++ semhash)).take 16

/-- `InsightReasoner._clamp01`. -/
def clamp01 (x : ℚ) : ℚ := max 0 (min 1 x)

/-- `InsightReasoner._cosine_similarity`. -/
def cosine_similarity (a b : List ℚ) : ℚ :=
  if a.isEmpty || b.isEmpty || decide (a.length ≠ b.length) then 0
  else
    let dot := dotQ a b
    let na := dotQ a a
    let nb := dotQ b b
    let denom := ratSqrt na * ratSqrt nb
    if 0 < denom then dot / denom else 0

/-- `parsed.get(k, default)` on a decoded JSON object.  (`_parse_llm_json`
always hands back a dict, so the non-dict arm is unreachable there.) -/
def jGet (v : JVal) (k : PyStr) (default : JVal) : JVal :=
  match v with
  | JVal.obj fields =>
    match fields.find? (fun p => decide (p.1 = k)) with
    | some p => p.2
    | none => default
  | _ => default

/-- A decoded JSON list.  (A non-list here would raise on slicing in Python;
no theorem exercises that path.) -/
def asArr : JVal → List JVal
  | JVal.arr l => l
  | _ => []

/-- Python truthiness (`bool(x)`) of a decoded JSON value. -/
def pyTruthy : JVal → Bool
  | JVal.null => false
  | JVal.bool b => b
  | JVal.num q => decide (q ≠ 0)
  | JVal.str s => !s.isEmpty
  | JVal.arr l => !l.isEmpty
  | JVal.obj fs => !fs.isEmpty

/-- Python `str(x)` of a decoded JSON value.  Non-string payloads are given a
simplified rendering (no theorem below depends on stringified non-string
fields). -/
def pyStrOf : JVal → PyStr
  | JVal.str s => s
  | JVal.bool b => if b then pys "True" else pys "False"
  | JVal.null => pys "None"
  | JVal.num _ => pys "<num>"
  | JVal.arr _ => pys "<list>"
  | JVal.obj _ => pys "<dict>"

/-- Python `float(x)` of a decoded JSON value; `none` models the call
raising.  (`float` on a numeric string would parse in Python; the claims
quantify over numeric confidences only, so strings are modelled as
failures.) -/
def pyFloat : JVal → Option ℚ
  | JVal.num q => some q
  | JVal.bool b => some (if b then 1 else 0)
  | _ => none

/-- The fallback result of `_parse_llm_json`. -/
def emptyInsights : JVal := JVal.obj [(pys "insights", JVal.arr [])]

/-- Index of the last occurrence of a character (`str.rfind`). -/
def lastIdxOf (t : PyStr) (c : Char) : Option Nat :=
  (t.reverse.findIdx? (fun x => decide (x = c))).map (fun i => t.length - 1 - i)

/-- `text[text.find("{") : text.rfind("}") + 1]` when both braces occur in
the right order. -/
def extract_brace_substring (t : PyStr) : Option PyStr :=
  match t.findIdx? (fun c => decide (c = '\x7b')), lastIdxOf t '\x7d' with
  | some s, some e => if s < e then some ((t.drop s).take (e + 1 - s)) else none
  | _, _ => none

/-- `InsightReasoner._parse_llm_json`; `loads` is the `json.loads` parameter
(`none` = raise, `some v` = decoded value). -/
def parse_llm_json (loads : PyStr → Option JVal) (text : PyStr) : JVal :=
  let t := trimWS text
  if t.isEmpty then emptyInsights
  else
    match loads t with
    | some (JVal.obj fields) => JVal.obj fields
    | _ =>
      match extract_brace_substring t with
      | some sub =>
        match loads sub with
        | some (JVal.obj fields) => JVal.obj fields
        | _ => emptyInsights
      | none => emptyInsights

/-- `build_synthesis_prompt`.  The exact prompt text is immaterial to every
claim (the oracle response is universally quantified), so the JSON payload
rendering is abbreviated to a deterministic concatenation of its parts. -/
def build_synthesis_prompt (dataset_id version schema analysis : PyStr)
    (existing : List PyStr) (max_new : Nat) : PyStr :=
  pys "synthesis|" ++ dataset_id ++ pys "|" ++ version ++ pys "|" ++ schema ++ pys "|" ++
    analysis ++ pys "|" ++ (existing.take 50).flatten ++ pys "|" ++ natRepr max_new

/-- `build_dedup_prompt`, abbreviated the same way. -/
def build_dedup_prompt (candidate : Insight) (existing : List JVal) : PyStr :=
  pys "dedup|" ++ candidate.title ++ pys "|" ++ candidate.technical_summary ++ pys "|" ++
    candidate.business_impact ++ pys "|" ++ natRepr (existing.take 20).length

/-- `InsightReasoner._embedding_dedup`. -/
def embedding_dedup (r : InsightReasoner) (candidate : Insight)
    (existing_summaries : List (PyStr × PyStr)) : Bool × Option PyStr :=
  let texts := (candidate.title ++ pys " " ++ candidate.technical_summary) ::
    existing_summaries.map Prod.snd
  match r.llm.embed texts with
  | none => (false, none)
  | some emb =>
    if emb.isEmpty || decide (emb.length ≠ texts.length) then (false, none)
    else
      let cand_vec := emb.headD []
      let best := (existing_summaries.zip (emb.drop 1)).foldl
        (fun best pv =>
          let sim := cosine_similarity cand_vec pv.2
          if best.1 < sim then (sim, some pv.1.1) else best)
        ((-1 : ℚ), (none : Option PyStr))
      if r.embedding_similarity_threshold ≤ best.1 then (true, best.2) else (false, none)

/-- `InsightReasoner._llm_semantic_duplicate`. -/
def llm_semantic_duplicate (r : InsightReasoner) (loads : PyStr → Option JVal)
    (candidate : Insight) (existing : List JVal) : Bool :=
  let raw := r.llm.complete (build_dedup_prompt candidate existing) 0
  pyTruthy (jGet (parse_llm_json loads raw) (pys "is_duplicate") (JVal.bool false))

/-- The body of the candidate loop of `synthesize_insights` for one decoded
candidate `c`; `none` propagates a raised exception (non-numeric
confidence). -/
def synthesize_step (r : InsightReasoner) (loads : PyStr → Option JVal)
    (sha : PyStr → PyStr) (dataset_id version : PyStr)
    (existing_pairs : List (PyStr × PyStr)) (existing_for_dedup : List JVal)
    (acc : List Insight) (c : JVal) : Option (List Insight) :=
  let title := trimWS (pyStrOf (jGet c (pys "title") (JVal.str [])))
  let technical := trimWS (pyStrOf (jGet c (pys "technical_summary") (JVal.str [])))
  let business := trimWS (pyStrOf (jGet c (pys "business_impact") (JVal.str [])))
  match pyFloat (jGet c (pys "confidence") (JVal.num 0.5)) with
  | none => none
  | some x =>
    let conf := clamp01 x
    let dk0 := trimWS (pyStrOf (jGet c (pys "dedup_key") (JVal.str title)))
    let dedup_key := if dk0.isEmpty then title else dk0
    let sem := semantic_hash sha dedup_key
    let iid := insight_id_of sha dataset_id version sem
    let candidate : Insight := ⟨iid, title, technical, business, conf, sem⟩
    if acc.any (fun x => decide (x.semantic_hash = candidate.semantic_hash)) then some acc
    else if (embedding_dedup r candidate existing_pairs).1 then some acc
    else if !existing_for_dedup.isEmpty &&
        llm_semantic_duplicate r loads candidate existing_for_dedup then some acc
    else some (acc ++ [candidate])

/-- `InsightReasoner.synthesize_insights`.  `loads` models `json.loads`,
`sha` models SHA-256 hex digest; `existing_insights_for_dedup = []` models
the `None` default.  The result is `some` of the produced insights, or
`none` when the loop body raises. -/
def synthesize_insights (r : InsightReasoner) (loads : PyStr → Option JVal)
    (sha : PyStr → PyStr) (dataset_id version : PyStr)
    (compressed_schema_json compressed_analysis_result_json : PyStr)
    (existing_insight_summaries : List PyStr)
    (existing_insights_for_dedup : List JVal) : Option (List Insight) :=
  let prompt0 := build_synthesis_prompt dataset_id version compressed_schema_json
    compressed_analysis_result_json existing_insight_summaries r.max_new_insights
  let prompt := maybe_compress_prompt r prompt0
  let raw := r.llm.complete prompt r.temperature
  let parsed := parse_llm_json loads raw
  let candidates := asArr (jGet parsed (pys "insights") (JVal.arr []))
  let existing_pairs := (existing_insight_summaries.take 50).enum.map
    (fun p => ((sha (dataset_id ++ pys "|existing|" ++ natRepr p.1 ++ pys "|" ++ p.2)).take 16,
      p.2))
  (candidates.take r.max_new_insights).foldlM
    (synthesize_step r loads sha dataset_id version existing_pairs existing_insights_for_dedup)
    []

/-! ## Concrete sample values used by witnesses and counterexamples -/

/-- A column with only the mandatory statistics populated. -/
def mkCol (name dtype : PyStr) (nullp : ℚ) (card : ℤ) (uniq : ℚ) : ColumnSchema :=
  { name := name, dtype := dtype, null_percentage := nullp, cardinality := card,
    unique_ratio := uniq }

/-- A one-column dataset schema. -/
def mkSchema1 (v : PyStr) (col : ColumnSchema) : DatasetSchema :=
  { dataset_id := pys "ds", version := v, file_path := pys "data/f.csv",
    file_hash := pys "h", row_count := 100, column_count := 1, created_at := pys "t",
    columns := [(col.name, col)] }

/-- Base schema for the null-percentage boundary: column `a` with 10% nulls. -/
def nullBase : DatasetSchema := mkSchema1 (pys "v1") (mkCol (pys "a") (pys "float64") 10 5 1)

/-- Compare schema: column `a` with 16% nulls (difference 6 > 5). -/
def nullComp : DatasetSchema := mkSchema1 (pys "v2") (mkCol (pys "a") (pys "float64") 16 5 1)

/-- Base schema for the cardinality boundary: column `a` with cardinality 100. -/
def cardBase : DatasetSchema := mkSchema1 (pys "v1") (mkCol (pys "a") (pys "int64") 0 100 1)

/-- Compare schema: cardinality 79, ratio 0.79 < 0.8. -/
def cardComp : DatasetSchema := mkSchema1 (pys "v2") (mkCol (pys "a") (pys "int64") 0 79 1)

/-- A numeric column carrying a compressed histogram (one bucket of count 1
over bin edges `[0, 1]`), of the kind `extract_schema` stores for numeric
columns. -/
def histCol : ColumnSchema :=
  { mkCol (pys "x") (pys "int64") 0 7 1 with
    histogram_bins := some [0, 1], histogram_counts := some [1] }

/-- A one-column schema whose single column has a histogram. -/
def histSchema : DatasetSchema := mkSchema1 (pys "v1") histCol

/-- Ten distinct upload contents (hash, schema JSON) for one dataset. -/
def tenUploads : List (PyStr × PyStr) :=
  (List.range 10).map (fun i => (pys "hash" ++ natRepr i, pys "sj"))

/-- First insight stored under semantic hash `sh`. -/
def insightA : StoredInsight := ⟨pys "id1", pys "d", pys "v1", pys "first", 1, pys "sh"⟩

/-- A different insight (other id and text) under the same `(dataset, hash)`. -/
def insightB : StoredInsight := ⟨pys "id2", pys "d", pys "v1", pys "second", 1, pys "sh"⟩

/-- An analysis record for the round-trip witness. -/
def analysisA : StoredAnalysis := ⟨pys "d", pys "v1", pys "ar", pys "t0"⟩

/-- An oracle whose completion has no extractable JSON object. -/
def plainTextLLM : LLMClient := ⟨fun _ _ => pys "no braces here", fun _ => none⟩

/-- A reasoner over `plainTextLLM` with default settings. -/
def plainTextReasoner : InsightReasoner := { llm := plainTextLLM }

/-- A `json.loads` that always raises. -/
def failingLoads : PyStr → Option JVal := fun _ => none

/-- One decoded candidate insight whose confidence 2 exceeds the unit
interval. -/
def overConfidentCandidate : JVal :=
  JVal.obj [(pys "title", JVal.str (pys "t")),
    (pys "technical_summary", JVal.str (pys "ts")),
    (pys "business_impact", JVal.str (pys "b")),
    (pys "confidence", JVal.num 2),
    (pys "dedup_key", JVal.str (pys "k"))]

/-- A `json.loads` decoding every response to one over-confident candidate. -/
def overConfidentLoads : PyStr → Option JVal :=
  fun _ => some (JVal.obj [(pys "insights", JVal.arr [overConfidentCandidate])])

/-- An oracle for the clamping witness (no embeddings). -/
def anyTextLLM : LLMClient := ⟨fun _ _ => pys "x", fun _ => none⟩

/-- A reasoner over `anyTextLLM` with default settings. -/
def anyTextReasoner : InsightReasoner := { llm := anyTextLLM }

/-- The identity used as the SHA-256 stand-in in witnesses (every theorem
quantifies over the hash function). -/
def idSha : PyStr → PyStr := fun s => s

/-- The insight the clamping witness run produces: confidence clamped to 1. -/
def clampedInsight : Insight := ⟨pys "d|v|k", pys "t", pys "ts", pys "b", 1, pys "k"⟩

/-! ## Statement-level predicates for the parsing claim -/

/-- `loads` does not decode `t` to a JSON object (it raises or yields a
non-object). -/
def not_parseable_as_obj (loads : PyStr → Option JVal) (t : PyStr) : Prop :=
  ∀ fields, loads t ≠ some (JVal.obj fields)

/-- The oracle response is empty, or is not decodable as a JSON object and
neither is its brace-delimited substring (when one exists): exactly the
inputs on which `_parse_llm_json` falls back to the empty insight list. -/
def unparseable_response (loads : PyStr → Option JVal) (text : PyStr) : Prop :=
  trimWS text = [] ∨
    (not_parseable_as_obj loads (trimWS text) ∧
      ∀ sub, extract_brace_substring (trimWS text) = some sub → not_parseable_as_obj loads sub)

/-! ## Helper lemmas: sorting -/

theorem lexLt_asymm : ∀ (a b : PyStr), lexLt a b = true → lexLt b a = false := by
  intro a
  induction a with
  | nil => intro b h; cases b with
    | nil => simp [lexLt] at h
    | cons y ys => simp [lexLt]
  | cons x xs ih =>
    intro b h
    cases b with
    | nil => simp [lexLt] at h
    | cons y ys =>
      by_cases h1 : x < y
      · have h2 : ¬ y < x := lt_asymm h1
        simp [lexLt, h1, h2]
      · by_cases h2 : y < x
        · simp [lexLt, h1, h2] at h
        · simp [lexLt, h1, h2] at h ⊢
          exact ih ys h

theorem sortStrings_cons (x : PyStr) (l : List PyStr) :
    sortStrings (x :: l) = insertSorted x (sortStrings l) := rfl

theorem mem_insertSorted (a x : PyStr) :
    ∀ (l : List PyStr), a ∈ insertSorted x l ↔ a = x ∨ a ∈ l := by
  intro l
  induction l with
  | nil => simp [insertSorted]
  | cons y ys ih =>
    by_cases h : lexLt y x = true
    · simp only [insertSorted, h, if_true, List.mem_cons, ih]
      tauto
    · simp only [insertSorted, h, if_false, Bool.false_eq_true, List.mem_cons]

theorem mem_sortStrings (a : PyStr) : ∀ (l : List PyStr), a ∈ sortStrings l ↔ a ∈ l := by
  intro l
  induction l with
  | nil => simp [sortStrings]
  | cons x xs ih =>
    rw [sortStrings_cons, mem_insertSorted]
    simp [ih]

theorem insertSorted_of_lt (x : PyStr) :
    ∀ (l : List PyStr), (∀ y ∈ l, lexLt x y = true) → insertSorted x l = x :: l := by
  intro l h
  cases l with
  | nil => rfl
  | cons y ys =>
    have := lexLt_asymm x y (h y (by simp))
    simp [insertSorted, this]

theorem sortStrings_eq_self :
    ∀ (l : List PyStr), List.Pairwise (fun a b => lexLt a b = true) l → sortStrings l = l := by
  intro l h
  induction l with
  | nil => rfl
  | cons x xs ih =>
    rw [List.pairwise_cons] at h
    rw [sortStrings_cons, ih h.2, insertSorted_of_lt x xs h.1]

/-! ## Helper lemmas: dict model -/

theorem find?_filter_imp {α : Type} (p q : α → Bool) (h : ∀ x, p x = true → q x = true) :
    ∀ (l : List α), List.find? p (l.filter q) = List.find? p l := by
  intro l
  induction l with
  | nil => rfl
  | cons x xs ih =>
    by_cases hq : q x = true
    · rw [List.filter_cons_of_pos hq]
      cases hp : p x with
      | true => simp [List.find?_cons, hp]
      | false => simp [List.find?_cons, hp, ih]
    · have hp : p x = false := by
        cases hpx : p x with
        | true => exact absurd (h x hpx) hq
        | false => rfl
      rw [List.filter_cons_of_neg (by simp [hq])]
      simp [List.find?_cons, hp, ih]

theorem lookupBy_upsert_self {α κ : Type} [DecidableEq κ] (key : α → κ) (m : List α) (v : α) :
    lookupBy key (upsert key m v) (key v) = some v := by
  unfold lookupBy upsert
  rw [List.find?_append]
  have h1 : List.find? (fun x => decide (key x = key v))
      (m.filter fun x => decide (key x ≠ key v)) = none := by
    rw [List.find?_eq_none]
    intro x hx
    have h2 := (List.mem_filter.mp hx).2
    simp only [decide_eq_true_eq] at h2 ⊢
    exact h2
  rw [h1]
  simp [List.find?]

theorem lookupBy_upsert_ne {α κ : Type} [DecidableEq κ] (key : α → κ) (m : List α) (v : α)
    (k : κ) (h : k ≠ key v) : lookupBy key (upsert key m v) k = lookupBy key m k := by
  unfold lookupBy upsert
  rw [List.find?_append]
  have h2 : List.find? (fun x => decide (key x = k)) [v] = none := by
    simp only [List.find?_cons, List.find?_nil]
    have : ¬ key v = k := fun hh => h hh.symm
    simp [this]
  rw [h2]
  rw [find?_filter_imp (fun x => decide (key x = k)) (fun x => decide (key x ≠ key v))
    (by intro x hx; simp only [decide_eq_true_eq] at hx ⊢; rw [hx]; exact h)]
  simp

theorem lookupBy_foldl_upsert_of_ne {α κ : Type} [DecidableEq κ] (key : α → κ)
    (l : List α) (k : κ) (h : ∀ x ∈ l, key x ≠ k) :
    ∀ (m : List α), lookupBy key (l.foldl (upsert key) m) k = lookupBy key m k := by
  induction l with
  | nil => intro m; rfl
  | cons x xs ih =>
    intro m
    simp only [List.foldl_cons]
    rw [ih (fun y hy => h y (by simp [hy]))]
    exact lookupBy_upsert_ne key m x k (fun hh => h x (by simp) hh.symm)

theorem find?_map_update (ds : PyStr) (i : StoredInsight) :
    ∀ (m : List (PyStr × List StoredInsight)),
      (m.map (fun p => if p.1 = ds then (p.1, p.2 ++ [i]) else p)).find?
          (fun p => decide (p.1 = ds))
        = (m.find? (fun p => decide (p.1 = ds))).map (fun p => (p.1, p.2 ++ [i])) := by
  intro m
  induction m with
  | nil => rfl
  | cons x xs ih =>
    by_cases hx : x.1 = ds
    · simp [List.find?_cons, hx]
    · simp [List.find?_cons, hx, ih]

theorem list_insights_save (st : MemoryStore) (i : StoredInsight)
    (hnew : (lookupBy Prod.fst st.insight_semantic_index
      (i.dataset_id, i.semantic_hash)).isSome = false) :
    list_insights (save_insight st i) i.dataset_id = list_insights st i.dataset_id ++ [i] := by
  unfold save_insight
  rw [if_neg (by simp [hnew])]
  unfold list_insights appendInsightToDataset
  by_cases hany : st.insights_by_dataset.any (fun p => decide (p.1 = i.dataset_id)) = true
  · rw [if_pos hany]
    simp only []
    rw [find?_map_update]
    have hsome : (st.insights_by_dataset.find? (fun p => decide (p.1 = i.dataset_id))).isSome := by
      rw [List.find?_isSome]
      rw [List.any_eq_true] at hany
      exact hany
    cases hfind : st.insights_by_dataset.find? (fun p => decide (p.1 = i.dataset_id)) with
    | none => rw [hfind] at hsome; simp at hsome
    | some q => simp [hfind]
  · rw [if_neg hany]
    have hnone : st.insights_by_dataset.find? (fun p => decide (p.1 = i.dataset_id)) = none := by
      rw [List.find?_eq_none]
      intro x hx hpx
      exact hany (List.any_eq_true.mpr ⟨x, hx, hpx⟩)
    simp only []
    rw [List.find?_append, hnone]
    simp [List.find?]

/-- C1: two `StoredInsight` records sharing `(dataset_id, semantic_hash)` but
differing in id or text: after saving both, the second call is a no-op — the
store is unchanged by it, the per-dataset list gained exactly the first
record, and the semantic index maps the key to the first id. -/
theorem save_insight_first_write_wins (st : MemoryStore) (i1 i2 : StoredInsight)
    (hds : i2.dataset_id = i1.dataset_id) (hsh : i2.semantic_hash = i1.semantic_hash)
    (hdiff : i2.insight_id ≠ i1.insight_id ∨ i2.summary ≠ i1.summary)
    (hnew : insight_exists st i1.semantic_hash i1.dataset_id = false) :
    save_insight (save_insight st i1) i2 = save_insight st i1 ∧
    list_insights (save_insight st i1) i1.dataset_id = list_insights st i1.dataset_id ++ [i1] ∧
    lookupBy Prod.fst (save_insight st i1).insight_semantic_index
        (i1.dataset_id, i1.semantic_hash)
      = some ((i1.dataset_id, i1.semantic_hash), i1.insight_id) := by
  have hnew2 : (lookupBy Prod.fst st.insight_semantic_index
      (i1.dataset_id, i1.semantic_hash)).isSome = false := hnew
  have hidx : (save_insight st i1).insight_semantic_index
      = upsert Prod.fst st.insight_semantic_index
          ((i1.dataset_id, i1.semantic_hash), i1.insight_id) := by
    unfold save_insight
    rw [if_neg (by simp [hnew2])]
  have hlook : lookupBy Prod.fst (save_insight st i1).insight_semantic_index
      (i1.dataset_id, i1.semantic_hash)
      = some ((i1.dataset_id, i1.semantic_hash), i1.insight_id) := by
    rw [hidx]
    exact lookupBy_upsert_self Prod.fst st.insight_semantic_index
      ((i1.dataset_id, i1.semantic_hash), i1.insight_id)
  refine ⟨?_, list_insights_save st i1 hnew2, hlook⟩
  conv_lhs => rw [save_insight]
  rw [hds, hsh, hlook]
  simp

/-- Witness for C1: the concrete pair `insightA`/`insightB` on the empty
store. -/
theorem save_insight_first_write_wins_witness :
    (insightB.dataset_id = insightA.dataset_id ∧
      insightB.semantic_hash = insightA.semantic_hash ∧
      (insightB.insight_id ≠ insightA.insight_id ∨ insightB.summary ≠ insightA.summary) ∧
      insight_exists emptyStore insightA.semantic_hash insightA.dataset_id = false) ∧
    (save_insight (save_insight emptyStore insightA) insightB
        = save_insight emptyStore insightA ∧
      list_insights (save_insight emptyStore insightA) insightA.dataset_id
        = list_insights emptyStore insightA.dataset_id ++ [insightA] ∧
      lookupBy Prod.fst (save_insight emptyStore insightA).insight_semantic_index
          (insightA.dataset_id, insightA.semantic_hash)
        = some ((insightA.dataset_id, insightA.semantic_hash), insightA.insight_id)) :=
  ⟨⟨by decide, by decide, by decide, by decide⟩,
   save_insight_first_write_wins emptyStore insightA insightB (by decide) (by decide)
     (by decide) (by decide)⟩

/-- C4: after `save_analysis`, `has_analysis` is true and `get_analysis`
returns the record field-for-field; both survive a snapshot save/reload
round-trip into a fresh store. -/
theorem analysis_save_get_roundtrip (st : MemoryStore) (a : StoredAnalysis) :
    has_analysis (save_analysis st a) a.dataset_id a.version = true ∧
    get_analysis (save_analysis st a) a.dataset_id a.version = some a ∧
    has_analysis (store_load (store_save (save_analysis st a))) a.dataset_id a.version = true ∧
    get_analysis (store_load (store_save (save_analysis st a))) a.dataset_id a.version
      = some a := by
  have h1 : get_analysis (save_analysis st a) a.dataset_id a.version = some a := by
    show lookupBy analysisKey (upsert analysisKey st.analyses a) (a.dataset_id, a.version)
      = some a
    exact lookupBy_upsert_self analysisKey st.analyses a
  have h2 : get_analysis (store_load (store_save (save_analysis st a))) a.dataset_id a.version
      = some a := by
    show lookupBy analysisKey
      ((upsert analysisKey st.analyses a).foldl (upsert analysisKey) [])
      (a.dataset_id, a.version) = some a
    rw [upsert, List.foldl_append]
    simp only [List.foldl_cons, List.foldl_nil]
    exact lookupBy_upsert_self analysisKey _ a
  refine ⟨?_, h1, ?_, h2⟩
  · show (get_analysis (save_analysis st a) a.dataset_id a.version).isSome = true
    rw [h1]; rfl
  · show (get_analysis (store_load (store_save (save_analysis st a)))
      a.dataset_id a.version).isSome = true
    rw [h2]; rfl

/-- C5: `has_significant_drift(p_threshold)` holds exactly when a p-value
exists, is strictly below the threshold, and the similarity score is strictly
below 0.8; at `(p=0.01, sim=0.9)` and `(p=0.2, sim=0.5)` it is false. -/
theorem has_significant_drift_conjunction :
    (∀ (d : DistributionDrift) (p_threshold : ℚ),
      d.has_significant_drift p_threshold = true ↔
        ∃ p, d.p_value = some p ∧ p < p_threshold ∧ d.similarity_score < 0.8) ∧
    DistributionDrift.has_significant_drift
      { column_name := pys "c", p_value := some 0.01, similarity_score := 0.9 } = false ∧
    DistributionDrift.has_significant_drift
      { column_name := pys "c", p_value := some 0.2, similarity_score := 0.5 } = false := by
  refine ⟨?_, ?_, ?_⟩
  · intro d pt
    unfold DistributionDrift.has_significant_drift
    cases hp : d.p_value with
    | none => simp
    | some p => simp
  · simp [DistributionDrift.has_significant_drift]
    norm_num
  · simp [DistributionDrift.has_significant_drift]
    norm_num

theorem mem_map_fst_filterMap {β : Type} (common : List PyStr) (f : PyStr → Option (PyStr × β))
    (hf : ∀ x y, f x = some y → y.1 = x) (col : PyStr) :
    col ∈ (common.filterMap f).map Prod.fst ↔ col ∈ common ∧ ∃ v, f col = some (col, v) := by
  constructor
  · intro h
    rcases List.mem_map.mp h with ⟨y, hy, hfst⟩
    rcases List.mem_filterMap.mp hy with ⟨x, hx, hfx⟩
    have hx1 : x = col := (hf x y hfx).symm.trans hfst
    rw [hx1] at hfx
    refine ⟨hx1 ▸ hx, y.2, ?_⟩
    have hyy : y = (col, y.2) := Prod.ext_iff.mpr ⟨hfst, rfl⟩
    rw [← hyy]
    exact hfx
  · rintro ⟨hmem, v, hv⟩
    exact List.mem_map.mpr ⟨(col, v), List.mem_filterMap.mpr ⟨col, hmem, hv⟩, rfl⟩

theorem lookupColumn_mem (cols : List (PyStr × ColumnSchema)) (col : PyStr) (cs : ColumnSchema)
    (h : lookupColumn cols col = some cs) : col ∈ cols.map Prod.fst := by
  unfold lookupColumn at h
  cases hf : cols.find? (fun p => decide (p.1 = col)) with
  | none => rw [hf] at h; simp at h
  | some p =>
    have hp := List.find?_some hf
    have hmem := List.mem_of_find?_eq_some hf
    simp only [decide_eq_true_eq] at hp
    exact List.mem_map.mpr ⟨p, hmem, hp⟩

theorem mem_common_of_lookups (b c : DatasetSchema) (col : PyStr) (bc cc : ColumnSchema)
    (hb : lookupColumn b.columns col = some bc) (hc : lookupColumn c.columns col = some cc) :
    col ∈ ((columnNames b).dedup).filter (fun x => x ∈ (columnNames c).dedup) := by
  rw [List.mem_filter]
  refine ⟨List.mem_dedup.mpr (lookupColumn_mem b.columns col bc hb), ?_⟩
  simp only [decide_eq_true_eq]
  exact List.mem_dedup.mpr (lookupColumn_mem c.columns col cc hc)

/-- C6: a column common to both schemas is flagged for a null-percentage
change exactly when the absolute null-percentage difference strictly exceeds
5.0. -/
theorem null_pct_change_iff (b c : DatasetSchema) (col : PyStr) (bc cc : ColumnSchema)
    (hb : lookupColumn b.columns col = some bc) (hc : lookupColumn c.columns col = some cc) :
    col ∈ (detect_schema_drift b c).null_percentage_changes.map Prod.fst ↔
      |bc.null_percentage - cc.null_percentage| > 5.0 := by
  have hf : ∀ (x : PyStr) (y : PyStr × (ℚ × ℚ)),
      (match lookupColumn b.columns x, lookupColumn c.columns x with
        | some base_col, some compare_col =>
          if |base_col.null_percentage - compare_col.null_percentage| > 5.0 then
            some (x, (base_col.null_percentage, compare_col.null_percentage))
          else none
        | _, _ => none) = some y → y.1 = x := by
    intro x y hxy
    rcases hbx : lookupColumn b.columns x with _ | u <;>
      rcases hcx : lookupColumn c.columns x with _ | w <;>
        simp only [hbx, hcx] at hxy
    · exact Option.noConfusion hxy
    · exact Option.noConfusion hxy
    · exact Option.noConfusion hxy
    · by_cases hcond : |u.null_percentage - w.null_percentage| > 5.0
      · rw [if_pos hcond] at hxy
        cases hxy
        rfl
      · rw [if_neg hcond] at hxy
        exact Option.noConfusion hxy
  show col ∈ (List.filterMap _ _).map Prod.fst ↔ _
  rw [mem_map_fst_filterMap _ _ hf col]
  simp only [hb, hc]
  constructor
  · rintro ⟨_, v, hv⟩
    by_cases hcond : |bc.null_percentage - cc.null_percentage| > 5.0
    · exact hcond
    · simp [hcond] at hv
  · intro hcond
    exact ⟨mem_common_of_lookups b c col bc cc hb hc,
      (bc.null_percentage, cc.null_percentage), by simp [hcond]⟩

/-- Witness for C6: base null% 10 vs compare null% 16, difference 6 > 5, so
column `a` is flagged. -/
theorem null_pct_change_iff_witness :
    (lookupColumn nullBase.columns (pys "a") = some (mkCol (pys "a") (pys "float64") 10 5 1) ∧
      lookupColumn nullComp.columns (pys "a") = some (mkCol (pys "a") (pys "float64") 16 5 1)) ∧
    pys "a" ∈ (detect_schema_drift nullBase nullComp).null_percentage_changes.map Prod.fst :=
  ⟨⟨by decide, by decide⟩,
   (null_pct_change_iff nullBase nullComp (pys "a")
       (mkCol (pys "a") (pys "float64") 10 5 1) (mkCol (pys "a") (pys "float64") 16 5 1)
       (by decide) (by decide)).mpr
     (by norm_num [mkCol, abs_eq_max_neg, max_def])⟩

/-- C7: a column common to both schemas is flagged for a cardinality change
exactly when the base cardinality is strictly positive and the
compare/base ratio lies strictly outside `[0.8, 1.2]`; in particular a base
cardinality of 0 is never flagged (the guarded division is not reached). -/
theorem cardinality_change_iff (b c : DatasetSchema) (col : PyStr) (bc cc : ColumnSchema)
    (hb : lookupColumn b.columns col = some bc) (hc : lookupColumn c.columns col = some cc) :
    col ∈ (detect_schema_drift b c).cardinality_changes.map Prod.fst ↔
      (0 < bc.cardinality ∧
        ((cc.cardinality : ℚ) / (bc.cardinality : ℚ) < 0.8 ∨
          (cc.cardinality : ℚ) / (bc.cardinality : ℚ) > 1.2)) := by
  have hf : ∀ (x : PyStr) (y : PyStr × (ℤ × ℤ)),
      (match lookupColumn b.columns x, lookupColumn c.columns x with
        | some base_col, some compare_col =>
          if 0 < base_col.cardinality then
            let card_ratio : ℚ := (compare_col.cardinality : ℚ) / (base_col.cardinality : ℚ)
            if card_ratio < 0.8 ∨ card_ratio > 1.2 then
              some (x, (base_col.cardinality, compare_col.cardinality))
            else none
          else none
        | _, _ => none) = some y → y.1 = x := by
    intro x y hxy
    rcases hbx : lookupColumn b.columns x with _ | u <;>
      rcases hcx : lookupColumn c.columns x with _ | w <;>
        simp only [hbx, hcx] at hxy
    · exact Option.noConfusion hxy
    · exact Option.noConfusion hxy
    · exact Option.noConfusion hxy
    · by_cases hpos : 0 < u.cardinality
      · rw [if_pos hpos] at hxy
        by_cases hr : (w.cardinality : ℚ) / (u.cardinality : ℚ) < 0.8 ∨
            (w.cardinality : ℚ) / (u.cardinality : ℚ) > 1.2
        · rw [if_pos hr] at hxy
          cases hxy
          rfl
        · rw [if_neg hr] at hxy
          exact Option.noConfusion hxy
      · rw [if_neg hpos] at hxy
        exact Option.noConfusion hxy
  show col ∈ (List.filterMap _ _).map Prod.fst ↔ _
  rw [mem_map_fst_filterMap _ _ hf col]
  simp only [hb, hc]
  constructor
  · rintro ⟨_, v, hv⟩
    by_cases hpos : 0 < bc.cardinality
    · by_cases hr : (cc.cardinality : ℚ) / (bc.cardinality : ℚ) < 0.8 ∨
          (cc.cardinality : ℚ) / (bc.cardinality : ℚ) > 1.2
      · exact ⟨hpos, hr⟩
      · simp only [hpos, if_true] at hv
        simp [hr] at hv
    · simp [hpos] at hv
  · rintro ⟨hpos, hr⟩
    refine ⟨mem_common_of_lookups b c col bc cc hb hc,
      (bc.cardinality, cc.cardinality), ?_⟩
    simp only [hpos, if_true]
    simp [hr]

/-- Witness for C7: base cardinality 100 vs compare 79, ratio 0.79, flagged. -/
theorem cardinality_change_iff_witness :
    (lookupColumn cardBase.columns (pys "a") = some (mkCol (pys "a") (pys "int64") 0 100 1) ∧
      lookupColumn cardComp.columns (pys "a") = some (mkCol (pys "a") (pys "int64") 0 79 1)) ∧
    pys "a" ∈ (detect_schema_drift cardBase cardComp).cardinality_changes.map Prod.fst :=
  ⟨⟨by decide, by decide⟩,
   (cardinality_change_iff cardBase cardComp (pys "a")
       (mkCol (pys "a") (pys "int64") 0 100 1) (mkCol (pys "a") (pys "int64") 0 79 1)
       (by decide) (by decide)).mpr
     (by constructor
         · norm_num [mkCol]
         · left; norm_num [mkCol])⟩

theorem ratSqrt_mul_self (r : ℚ) (hr : 0 ≤ r) : ratSqrt (r * r) = r := by
  unfold ratSqrt
  rw [Rat.mul_self_num r, Rat.mul_self_den r]
  have h0 : 0 ≤ r.num := Rat.num_nonneg.mpr hr
  have htoNat : (r.num * r.num).toNat = r.num.toNat * r.num.toNat := by
    rcases Int.eq_ofNat_of_zero_le h0 with ⟨n, hn⟩
    rw [hn]
    simp only [← Nat.cast_mul, Int.toNat_natCast]
  rw [htoNat, Nat.sqrt_eq, Nat.sqrt_eq]
  rw [show ((r.num.toNat : ℚ)) = (r.num : ℚ) by rw [← Int.cast_natCast, Int.toNat_of_nonneg h0]]
  exact Rat.num_div_den r

theorem qMean_zeros (l : List ℚ) (h : ∀ x ∈ l, x = 0) :
    (if l ≠ [] then qMean l else 0) = 0 := by
  by_cases hl : l = []
  · simp [hl]
  · rw [if_pos hl]
    unfold qMean
    rw [List.sum_eq_zero h, zero_div]

theorem sum_of_ones : ∀ (l : List ℚ), (∀ x ∈ l, x = 1) → l.sum = (l.length : ℚ) := by
  intro l
  induction l with
  | nil => intro _; simp
  | cons x xs ih =>
    intro h
    rw [List.sum_cons, h x (by simp), ih (fun y hy => h y (by simp [hy])), List.length_cons]
    push_cast
    ring

theorem qMean_ones (l : List ℚ) (h : ∀ x ∈ l, x = 1) (hne : l ≠ []) : qMean l = 1 := by
  unfold qMean
  rw [sum_of_ones l h]
  exact div_self (by
    have : l.length ≠ 0 := fun hz => hne (List.eq_nil_of_length_eq_zero hz)
    exact_mod_cast this)

theorem self_similarity_one (S : DatasetSchema)
    (hnh : ∀ p ∈ S.columns,
      p.2.histogram_bins.getD [] = [] ∨ p.2.histogram_counts.getD [] = [])
    (col : PyStr) (d : DistributionDrift)
    (hd : detect_distribution_drift S S col = some d) : d.similarity_score = 1 := by
  rcases hfind : S.columns.find? (fun p => decide (p.1 = col)) with _ | p
  · unfold detect_distribution_drift lookupColumn at hd
    rw [hfind] at hd
    exact Option.noConfusion hd
  · have hu : lookupColumn S.columns col = some p.2 := by
      unfold lookupColumn
      rw [hfind]
      rfl
    unfold detect_distribution_drift at hd
    rw [hu] at hd
    have hp := hnh p (List.mem_of_find?_eq_some hfind)
    rcases hbins : p.2.histogram_bins with _ | bb
    · simp only [hbins] at hd
      rw [← Option.some_inj.mp hd]
    · rcases hp with hb | hc
      · rw [hbins] at hb
        simp only [Option.getD_some] at hb
        subst hb
        simp only [hbins] at hd
        rw [if_neg (by simp)] at hd
        rw [← Option.some_inj.mp hd]
      · simp only [hbins] at hd
        by_cases hbb : bb = []
        · subst hbb
          rw [if_neg (by simp)] at hd
          rw [← Option.some_inj.mp hd]
        · rw [if_pos ⟨hbb, hbb⟩] at hd
          rw [if_neg (by simp [hc])] at hd
          rw [← Option.some_inj.mp hd]

/-- C8 (amended): comparing a schema against an identical copy always yields
empty added/removed/type/null/cardinality sets and `has_drift() = false`;
the `overall_drift_score` is exactly 0 provided no column carries a nonempty
histogram (with a histogram the cosine-similarity denominator's `+ 1e-10`
makes the score strictly positive, see the counterexample). -/
theorem self_drift_clean (S : DatasetSchema)
    (hnh : ∀ p ∈ S.columns,
      p.2.histogram_bins.getD [] = [] ∨ p.2.histogram_counts.getD [] = []) :
    (detect_schema_drift S S).added_columns = [] ∧
    (detect_schema_drift S S).removed_columns = [] ∧
    (detect_schema_drift S S).type_changes = [] ∧
    (detect_schema_drift S S).null_percentage_changes = [] ∧
    (detect_schema_drift S S).cardinality_changes = [] ∧
    (detect_schema_drift S S).has_drift = false ∧
    (generate_drift_report S S).overall_drift_score = 0 := by
  have hadded : (detect_schema_drift S S).added_columns = [] := by
    show List.filter _ ((columnNames S).dedup) = []
    rw [List.filter_eq_nil_iff]
    intro a ha
    simp [ha]
  have hremoved : (detect_schema_drift S S).removed_columns = [] := by
    show List.filter _ ((columnNames S).dedup) = []
    rw [List.filter_eq_nil_iff]
    intro a ha
    simp [ha]
  have htype : (detect_schema_drift S S).type_changes = [] := by
    show List.filterMap _ (((columnNames S).dedup).filter _) = []
    rw [List.filterMap_eq_nil_iff]
    intro a _
    rcases hl : lookupColumn S.columns a with _ | u
    · simp [hl]
    · simp [hl]
  have hnull : (detect_schema_drift S S).null_percentage_changes = [] := by
    show List.filterMap _ (((columnNames S).dedup).filter _) = []
    rw [List.filterMap_eq_nil_iff]
    intro a _
    rcases hl : lookupColumn S.columns a with _ | u
    · simp [hl]
    · simp only [hl]
      rw [sub_self, abs_zero, if_neg (by norm_num)]
  have hcard : (detect_schema_drift S S).cardinality_changes = [] := by
    show List.filterMap _ (((columnNames S).dedup).filter _) = []
    rw [List.filterMap_eq_nil_iff]
    intro a _
    rcases hl : lookupColumn S.columns a with _ | u
    · simp [hl]
    · by_cases hpos : 0 < u.cardinality
      · simp only [hl]
        rw [if_pos hpos]
        have hc1 : ((u.cardinality : ℚ)) ≠ 0 := by exact_mod_cast hpos.ne'
        simp only [div_self hc1]
        rw [if_neg (by norm_num)]
      · simp only [hl]
        rw [if_neg hpos]
  have hflag : (detect_schema_drift S S).has_drift = false := by
    unfold SchemaDrift.has_drift
    rw [hadded, hremoved, htype, hnull, hcard]
    simp
  refine ⟨hadded, hremoved, htype, hnull, hcard, hflag, ?_⟩
  unfold generate_drift_report
  simp only []
  refine qMean_zeros _ ?_
  intro x hx
  rcases List.mem_append.mp hx with hx1 | hx2
  · by_cases hn : 0 < S.columns.length
    · rw [if_pos hn] at hx1
      simp only [List.mem_cons, List.not_mem_nil, or_false] at hx1
      rcases hx1 with h | h | h <;> subst h <;>
        simp [hadded, hremoved, htype]
    · rw [if_neg hn] at hx1
      exact absurd hx1 (List.not_mem_nil x)
  · split at hx2
    case isTrue hcond =>
      simp only [List.mem_singleton] at hx2
      subst hx2
      rw [qMean_ones _ ?_ ?_, sub_self]
      · intro s hs
        rcases List.mem_map.mp hs with ⟨pr, hpr, hseq⟩
        rcases List.mem_filterMap.mp hpr with ⟨c0, _, hfe⟩
        rcases Option.map_eq_some'.mp hfe with ⟨d, hd, hpr_eq⟩
        rw [← hseq, ← hpr_eq]
        exact self_similarity_one S hnh c0 d hd
      · intro hmapnil
        exact hcond (List.map_eq_nil_iff.mp hmapnil)
    case isFalse hcond =>
      exact absurd hx2 (List.not_mem_nil x)

/-- Witness for the amended C8 at a concrete histogram-free schema. -/
theorem self_drift_clean_witness :
    (∀ p ∈ nullBase.columns,
      p.2.histogram_bins.getD [] = [] ∨ p.2.histogram_counts.getD [] = []) ∧
    ((detect_schema_drift nullBase nullBase).added_columns = [] ∧
      (detect_schema_drift nullBase nullBase).removed_columns = [] ∧
      (detect_schema_drift nullBase nullBase).type_changes = [] ∧
      (detect_schema_drift nullBase nullBase).null_percentage_changes = [] ∧
      (detect_schema_drift nullBase nullBase).cardinality_changes = [] ∧
      (detect_schema_drift nullBase nullBase).has_drift = false ∧
      (generate_drift_report nullBase nullBase).overall_drift_score = 0) :=
  ⟨by decide, self_drift_clean nullBase (by decide)⟩

theorem detect_self_hist (S : DatasetSchema) (col : PyStr) (u : ColumnSchema)
    (hl : lookupColumn S.columns col = some u)
    (bb : List ℚ) (cc : List ℤ)
    (hbins : u.histogram_bins = some bb) (hbb : bb ≠ [])
    (hcounts : u.histogram_counts = some cc) (hcc : cc ≠ []) :
    ∃ d : DistributionDrift, detect_distribution_drift S S col = some d ∧
      d.similarity_score =
        (let counts := cc.map (fun n : ℤ => (n : ℚ))
         let norm := counts.map (fun x => x / (counts.sum + 1e-10))
         dotQ norm norm / (ratSqrt (dotQ norm norm) * ratSqrt (dotQ norm norm) + 1e-10)) := by
  unfold detect_distribution_drift
  rw [hl]
  refine ⟨_, rfl, ?_⟩
  simp only [hbins, hcounts, Option.getD_some]
  rw [if_pos ⟨hbb, hbb⟩]
  have hmap : (cc.map (fun n : ℤ => (n : ℚ))) ≠ [] :=
    fun h => hcc (List.map_eq_nil_iff.mp h)
  rw [if_pos ⟨hmap, hmap⟩]

/-- Counterexample for C8 as stated: with an identical one-column schema that
carries a histogram, the self-comparison `overall_drift_score` is NOT 0 — the
`+ 1e-10` in the cosine-similarity denominator keeps the similarity of the
identical histograms strictly below 1. -/
theorem overall_drift_score_nonzero_on_identical_histograms :
    (generate_drift_report histSchema histSchema).overall_drift_score ≠ 0 := by
  obtain ⟨d, hdd, hsim⟩ := detect_self_hist histSchema (pys "x") histCol (by decide)
    [0, 1] [1] rfl (by simp) rfl (by simp)
  simp [dotQ] at hsim
  rw [ratSqrt_mul_self _ (by positivity)] at hsim
  have h1 : (detect_schema_drift histSchema histSchema).added_columns = [] := by decide
  have h2 : (detect_schema_drift histSchema histSchema).removed_columns = [] := by decide
  have h3 : (detect_schema_drift histSchema histSchema).type_changes = [] := by decide
  have hcommon : (((columnNames histSchema).dedup).filter
      (fun c => decide (c ∈ (columnNames histSchema).dedup))) = [pys "x"] := by decide
  have hreport : (generate_drift_report histSchema histSchema).overall_drift_score
      = qMean [0, 0, 0, 1 - d.similarity_score] := by
    unfold generate_drift_report
    simp only [hcommon, List.filterMap_cons, List.filterMap_nil, hdd, Option.map_some',
      h1, h2, h3, List.length_nil]
    rw [if_pos (by decide : 0 < histSchema.columns.length)]
    rw [if_pos (by simp : ([(pys "x", d)] : List (PyStr × DistributionDrift)) ≠ [])]
    rw [if_pos (by simp : ([((0:ℕ):ℚ) / (histSchema.columns.length : ℚ),
      ((0:ℕ):ℚ) / (histSchema.columns.length : ℚ),
      ((0:ℕ):ℚ) / (histSchema.columns.length : ℚ)] ++
        [1 - qMean (List.map (fun p => p.2.similarity_score) [(pys "x", d)])] : List ℚ) ≠ [])]
    simp [qMean]
  rw [hreport, hsim]
  unfold qMean
  simp only [List.sum_cons, List.sum_nil, List.length_cons, List.length_nil]
  norm_num

theorem parse_llm_json_fallback (loads : PyStr → Option JVal) (text : PyStr)
    (h : unparseable_response loads text) : parse_llm_json loads text = emptyInsights := by
  unfold parse_llm_json
  rcases h with he | ⟨hobj, hsub⟩
  · simp [he]
  · have hrest : (match extract_brace_substring (trimWS text) with
        | some sub =>
          match loads sub with
          | some (JVal.obj fields) => JVal.obj fields
          | _ => emptyInsights
        | none => emptyInsights) = emptyInsights := by
      rcases hx : extract_brace_substring (trimWS text) with _ | sub
      · rfl
      · simp only []
        rcases hl2 : loads sub with _ | v2
        · rfl
        · cases v2 with
          | obj fields => exact absurd hl2 (hsub sub hx fields)
          | null => rfl
          | bool b => rfl
          | num q => rfl
          | str s => rfl
          | arr l => rfl
    by_cases htt : trimWS text = []
    · simp [htt]
    · have ht : (trimWS text).isEmpty = false := by
        cases hc : trimWS text with
        | nil => exact absurd hc htt
        | cons a as => rfl
      simp only [ht, Bool.false_eq_true, if_false]
      rcases hl : loads (trimWS text) with _ | v
      · exact hrest
      · cases v with
        | obj fields => exact absurd hl (hobj fields)
        | null => exact hrest
        | bool b => exact hrest
        | num q => exact hrest
        | str s => exact hrest
        | arr l => exact hrest

/-- C9: when the oracle response is empty, malformed, or carries no JSON
object (not even as a brace-delimited substring), `synthesize_insights`
returns the empty insight list without raising from the parsing step. -/
theorem synthesize_insights_empty_on_unparseable (r : InsightReasoner)
    (loads : PyStr → Option JVal) (sha : PyStr → PyStr)
    (dataset_id version sj aj : PyStr) (exS : List PyStr) (exD : List JVal)
    (h : unparseable_response loads
      (r.llm.complete
        (maybe_compress_prompt r
          (build_synthesis_prompt dataset_id version sj aj exS r.max_new_insights))
        r.temperature)) :
    synthesize_insights r loads sha dataset_id version sj aj exS exD = some [] := by
  unfold synthesize_insights
  simp only []
  rw [parse_llm_json_fallback loads _ h]
  simp [emptyInsights, jGet, asArr, List.find?]

/-- Witness for C9: a completion with no braces and a `json.loads` that
always raises. -/
theorem synthesize_insights_empty_on_unparseable_witness :
    unparseable_response failingLoads
      (plainTextReasoner.llm.complete
        (maybe_compress_prompt plainTextReasoner
          (build_synthesis_prompt (pys "d") (pys "v") (pys "s") (pys "a") []
            plainTextReasoner.max_new_insights))
        plainTextReasoner.temperature) ∧
    synthesize_insights plainTextReasoner failingLoads idSha (pys "d") (pys "v") (pys "s")
      (pys "a") [] [] = some [] := by
  have h : unparseable_response failingLoads
      (plainTextReasoner.llm.complete
        (maybe_compress_prompt plainTextReasoner
          (build_synthesis_prompt (pys "d") (pys "v") (pys "s") (pys "a") []
            plainTextReasoner.max_new_insights))
        plainTextReasoner.temperature) := by
    right
    constructor
    · intro fields hf
      exact Option.noConfusion hf
    · intro sub hsub
      rw [(by decide : extract_brace_substring (trimWS
        (plainTextReasoner.llm.complete
          (maybe_compress_prompt plainTextReasoner
            (build_synthesis_prompt (pys "d") (pys "v") (pys "s") (pys "a") []
              plainTextReasoner.max_new_insights))
          plainTextReasoner.temperature)) = none)] at hsub
      exact Option.noConfusion hsub
  exact ⟨h, synthesize_insights_empty_on_unparseable plainTextReasoner failingLoads idSha
    (pys "d") (pys "v") (pys "s") (pys "a") [] [] h⟩

theorem foldlM_clamp_invariant (r : InsightReasoner) (loads : PyStr → Option JVal)
    (sha : PyStr → PyStr) (ds ver : PyStr) (pairs : List (PyStr × PyStr))
    (exD : List JVal) :
    ∀ (cands : List JVal) (acc out : List Insight),
      (∀ i ∈ acc, 0 ≤ i.confidence ∧ i.confidence ≤ 1) →
      List.foldlM (synthesize_step r loads sha ds ver pairs exD) acc cands = some out →
      ∀ i ∈ out, 0 ≤ i.confidence ∧ i.confidence ≤ 1 := by
  intro cands
  induction cands with
  | nil =>
    intro acc out hacc heq
    simp only [List.foldlM_nil] at heq
    obtain rfl := Option.some_inj.mp heq
    exact hacc
  | cons c cs ih =>
    intro acc out hacc heq
    rw [List.foldlM_cons] at heq
    rcases hstep : synthesize_step r loads sha ds ver pairs exD acc c with _ | acc2
    · rw [hstep] at heq
      exact absurd heq (by simp)
    · rw [hstep] at heq
      simp only [Option.bind_eq_bind, Option.some_bind] at heq
      refine ih acc2 out ?_ heq
      unfold synthesize_step at hstep
      rcases hpf : pyFloat (jGet c (pys "confidence") (JVal.num 0.5)) with _ | x
      · rw [hpf] at hstep
        exact Option.noConfusion hstep
      · rw [hpf] at hstep
        simp only [] at hstep
        repeat' split at hstep
        all_goals
          obtain rfl := Option.some_inj.mp hstep
        all_goals
          intro i hi
        all_goals
          first
            | exact hacc i hi
            | (rcases List.mem_append.mp hi with hi1 | hi2
               · exact hacc i hi1
               · simp only [List.mem_singleton] at hi2
                 subst hi2
                 exact ⟨le_max_left 0 (min 1 x),
                   max_le (by norm_num) (min_le_left 1 x)⟩)

/-- C10: every insight `synthesize_insights` produces has confidence in
`[0, 1]`: the loop applies `_clamp01`, which sends values below 0 to 0 and
above 1 to 1 and passes in-range values through (clamped, not rejected). -/
theorem synthesize_insights_confidence_clamped :
    (∀ (r : InsightReasoner) (loads : PyStr → Option JVal) (sha : PyStr → PyStr)
      (dataset_id version sj aj : PyStr) (exS : List PyStr) (exD : List JVal)
      (out : List Insight),
      synthesize_insights r loads sha dataset_id version sj aj exS exD = some out →
      ∀ ins ∈ out, 0 ≤ ins.confidence ∧ ins.confidence ≤ 1) ∧
    (∀ x : ℚ, x ≤ 0 → clamp01 x = 0) ∧
    (∀ x : ℚ, 1 ≤ x → clamp01 x = 1) ∧
    (∀ x : ℚ, 0 ≤ x → x ≤ 1 → clamp01 x = x) := by
  refine ⟨?_, ?_, ?_, ?_⟩
  · intro r loads sha dataset_id version sj aj exS exD out heq
    unfold synthesize_insights at heq
    exact foldlM_clamp_invariant r loads sha dataset_id version _ exD _ [] out
      (by simp) heq
  · intro x hx
    unfold clamp01
    rw [min_eq_right (hx.trans (by norm_num)), max_eq_left hx]
  · intro x hx
    unfold clamp01
    rw [min_eq_left hx, max_eq_right (by norm_num)]
  · intro x hx0 hx1
    unfold clamp01
    rw [min_eq_right hx1, max_eq_right hx0]

/-- Witness for C10: the oracle returns confidence 2; the stored insight has
confidence exactly 1. -/
theorem synthesize_insights_confidence_clamped_witness :
    synthesize_insights anyTextReasoner overConfidentLoads idSha (pys "d") (pys "v")
      (pys "s") (pys "a") [] [] = some [clampedInsight] ∧
    (0 ≤ clampedInsight.confidence ∧ clampedInsight.confidence ≤ 1) := by
  have h : synthesize_insights anyTextReasoner overConfidentLoads idSha (pys "d") (pys "v")
      (pys "s") (pys "a") [] [] = some [clampedInsight] := by decide
  exact ⟨h, synthesize_insights_confidence_clamped.1 anyTextReasoner overConfidentLoads idSha
    (pys "d") (pys "v") (pys "s") (pys "a") [] [] [clampedInsight] h clampedInsight
    (by decide)⟩

theorem mem_list_versions (st : MemoryStore) (d v : PyStr) :
    v ∈ list_versions st d ↔ ∃ s ∈ st.schemas, s.dataset_id = d ∧ s.version = v := by
  unfold list_versions
  rw [mem_sortStrings, List.mem_filterMap]
  constructor
  · rintro ⟨s, hs, hf⟩
    by_cases hd : s.dataset_id = d
    · rw [if_pos hd] at hf
      exact ⟨s, hs, hd, Option.some_inj.mp hf⟩
    · rw [if_neg hd] at hf
      exact Option.noConfusion hf
  · rintro ⟨s, hs, hd, hv⟩
    exact ⟨s, hs, by rw [if_pos hd, hv]⟩

theorem get_schema_mem_versions (st : MemoryStore) (d v : PyStr) (s : StoredSchema)
    (hg : get_schema st d v = some s) : v ∈ list_versions st d := by
  unfold get_schema lookupBy at hg
  have hmem := List.mem_of_find?_eq_some hg
  have hp := List.find?_some hg
  simp only [decide_eq_true_eq] at hp
  exact (mem_list_versions st d v).mpr
    ⟨s, hmem, congrArg Prod.fst hp, congrArg Prod.snd hp⟩

theorem find?_eq_some_of_unique {α : Type} (p : α → Bool) :
    ∀ (l : List α) (a : α), a ∈ l → p a = true → (∀ b ∈ l, p b = true → b = a) →
      List.find? p l = some a := by
  intro l
  induction l with
  | nil => intro a ha _ _; exact absurd ha (List.not_mem_nil a)
  | cons x xs ih =>
    intro a ha hpa huniq
    by_cases hpx : p x = true
    · have hxa : x = a := huniq x (by simp) hpx
      simp [List.find?_cons, hpx, hxa, hpa]
    · have hax : a ∈ xs := by
        rcases List.mem_cons.mp ha with h1 | h1
        · subst h1
          exact absurd hpa hpx
        · exact h1
      have hfx : p x = false := by
        cases hpxv : p x with
        | true => exact absurd hpxv hpx
        | false => rfl
      simp only [List.find?_cons, hfx]
      exact ih a hax hpa (fun b hb hpb => huniq b (by simp [hb]) hpb)

theorem find_after_fresh_save (st : MemoryStore) (d h v sj : PyStr)
    (hnone : find_version_by_hash st d h = none) :
    find_version_by_hash (save_schema st ⟨d, v, h, sj⟩) d h = some v := by
  unfold find_version_by_hash
  apply find?_eq_some_of_unique
  · refine (mem_list_versions _ d v).mpr ⟨⟨d, v, h, sj⟩, ?_, rfl, rfl⟩
    show (⟨d, v, h, sj⟩ : StoredSchema) ∈ upsert schemaKey st.schemas ⟨d, v, h, sj⟩
    unfold upsert
    simp
  · have hg : get_schema (save_schema st ⟨d, v, h, sj⟩) d v = some ⟨d, v, h, sj⟩ :=
      lookupBy_upsert_self schemaKey st.schemas ⟨d, v, h, sj⟩
    simp [hg]
  · intro v2 hv2 hpv2
    by_contra hne
    have hgs : get_schema (save_schema st ⟨d, v, h, sj⟩) d v2 = get_schema st d v2 :=
      lookupBy_upsert_ne schemaKey st.schemas ⟨d, v, h, sj⟩ (d, v2)
        (fun hh => hne (Prod.ext_iff.mp hh).2)
    rw [hgs] at hpv2
    rcases hgv : get_schema st d v2 with _ | s
    · rw [hgv] at hpv2
      exact absurd hpv2 (by simp)
    · have hmemSt : v2 ∈ list_versions st d := get_schema_mem_versions st d v2 s hgv
      have hfail := List.find?_eq_none.mp hnone v2 hmemSt
      apply hfail
      simp only [hgv]
      rw [hgv] at hpv2
      exact hpv2

/-- C2: ingesting content with a fresh hash assigns a version and stores the
schema; a second ingestion of the same content returns that same version
with `cached = true` and leaves the store untouched — no new version is
allocated and no schema is recomputed or stored. -/
theorem ingest_idempotent (st : MemoryStore) (d h sj sj2 : PyStr)
    (hnone : find_version_by_hash st d h = none) :
    (ingest st d h sj).2.cached = false ∧
    ingest (ingest st d h sj).1 d h sj2
      = ((ingest st d h sj).1, ⟨d, (ingest st d h sj).2.version, h, true⟩) := by
  have h1 : ingest st d h sj
      = (save_schema st ⟨d, next_version (list_versions st d), h, sj⟩,
         ⟨d, next_version (list_versions st d), h, false⟩) := by
    unfold ingest
    rw [hnone]
  rw [h1]
  refine ⟨rfl, ?_⟩
  have hfind := find_after_fresh_save st d h (next_version (list_versions st d)) sj hnone
  unfold ingest
  rw [hfind]

/-- Witness for C2: a fresh hash on the empty store. -/
theorem ingest_idempotent_witness :
    find_version_by_hash emptyStore (pys "d") (pys "h") = none ∧
    ((ingest emptyStore (pys "d") (pys "h") (pys "sj")).2.cached = false ∧
      ingest (ingest emptyStore (pys "d") (pys "h") (pys "sj")).1 (pys "d") (pys "h")
          (pys "sj2")
        = ((ingest emptyStore (pys "d") (pys "h") (pys "sj")).1,
           ⟨pys "d", (ingest emptyStore (pys "d") (pys "h") (pys "sj")).2.version,
            pys "h", true⟩)) :=
  ⟨by decide,
   ingest_idempotent emptyStore (pys "d") (pys "h") (pys "sj") (pys "sj2") (by decide)⟩


theorem vTags_sorted : ∀ k, k ≤ 9 →
    List.Pairwise (fun a b => lexLt a b = true)
      ((List.range k).map (fun i => vTag (i + 1))) := by decide

theorem next_version_range : ∀ k, k ≤ 9 →
    next_version ((List.range k).map (fun i => vTag (i + 1))) = vTag (k + 1) := by decide

theorem vTag_injOn : ∀ i, i < 10 → ∀ j, j < 10 → vTag (i + 1) = vTag (j + 1) → i = j := by
  decide

theorem filterMap_some_comp {α β : Type} (g : α → β) :
    ∀ (l : List α), l.filterMap (fun x => some (g x)) = l.map g := by
  intro l
  induction l with
  | nil => rfl
  | cons a as ih => simp [List.filterMap_cons, ih]

theorem list_versions_storeFor (d : PyStr) (done : List (PyStr × PyStr))
    (hlen : done.length ≤ 9) :
    list_versions (storeFor d done) d
      = (List.range done.length).map (fun i => vTag (i + 1)) := by
  have h1 : (storeFor d done).schemas.filterMap
      (fun s => if s.dataset_id = d then some s.version else none)
      = (List.range done.length).map (fun i => vTag (i + 1)) := by
    show (schemasFor d done).filterMap _ = _
    unfold schemasFor
    rw [List.filterMap_map]
    have h2 : ((fun s : StoredSchema => if s.dataset_id = d then some s.version else none) ∘
        fun p : Nat × (PyStr × PyStr) => (⟨d, vTag (p.1 + 1), p.2.1, p.2.2⟩ : StoredSchema))
        = fun p : Nat × (PyStr × PyStr) => some (vTag (p.1 + 1)) := by
      funext p
      simp [Function.comp]
    rw [h2, filterMap_some_comp]
    have h3 : (done.enum.map fun p => vTag (p.1 + 1))
        = (done.enum.map Prod.fst).map (fun i => vTag (i + 1)) := by
      rw [List.map_map]
      rfl
    rw [h3, List.enum_map_fst]
  unfold list_versions
  rw [h1]
  exact sortStrings_eq_self _ (vTags_sorted done.length (by omega))

theorem storeFor_hash_mem (d : PyStr) (done : List (PyStr × PyStr)) (v : PyStr)
    (s : StoredSchema) (hg : get_schema (storeFor d done) d v = some s) :
    s.file_hash ∈ done.map Prod.fst := by
  unfold get_schema lookupBy at hg
  have hmem : s ∈ schemasFor d done := List.mem_of_find?_eq_some hg
  unfold schemasFor at hmem
  rcases List.mem_map.mp hmem with ⟨p, hp, hs⟩
  have hpd : p.2 ∈ done := by
    have h3 := List.mem_enumFrom hp
    rw [h3.2.2]
    exact List.getElem_mem _
  rw [← hs]
  exact List.mem_map.mpr ⟨p.2, hpd, rfl⟩

theorem find_storeFor_none (d : PyStr) (done : List (PyStr × PyStr)) (h : PyStr)
    (hfresh : h ∉ done.map Prod.fst) :
    find_version_by_hash (storeFor d done) d h = none := by
  unfold find_version_by_hash
  rw [List.find?_eq_none]
  intro v _
  rcases hgv : get_schema (storeFor d done) d v with _ | s
  · simp [hgv]
  · simp only [hgv, decide_eq_true_eq]
    intro heq
    exact hfresh (heq ▸ storeFor_hash_mem d done v s hgv)

theorem ingest_storeFor_step (d : PyStr) (done : List (PyStr × PyStr)) (ph psj : PyStr)
    (hlen : done.length ≤ 8) (hfresh : ph ∉ done.map Prod.fst) :
    ingest (storeFor d done) d ph psj
      = (storeFor d (done ++ [(ph, psj)]), ⟨d, vTag (done.length + 1), ph, false⟩) := by
  unfold ingest
  rw [find_storeFor_none d done ph hfresh]
  rw [list_versions_storeFor d done (by omega)]
  rw [next_version_range done.length (by omega)]
  have hsave : save_schema (storeFor d done) ⟨d, vTag (done.length + 1), ph, psj⟩
      = storeFor d (done ++ [(ph, psj)]) := by
    have hschemas : upsert schemaKey (schemasFor d done)
        ⟨d, vTag (done.length + 1), ph, psj⟩ = schemasFor d (done ++ [(ph, psj)]) := by
      unfold upsert
      rw [List.filter_eq_self.mpr ?_]
      · unfold schemasFor
        rw [show (done ++ [(ph, psj)]).enum = done.enum ++ [(done.length, (ph, psj))] by
          simp [List.enum_append]]
        rw [List.map_append]
        rfl
      · intro s hs
        unfold schemasFor at hs
        rcases List.mem_map.mp hs with ⟨q, hq, hsq⟩
        have hqlt : q.1 < done.length := by
          have h4 := List.mem_enumFrom hq
          simpa using h4.2.1
        simp only [decide_eq_true_eq]
        intro hkey
        rw [← hsq] at hkey
        have hv := (Prod.ext_iff.mp hkey).2
        have := vTag_injOn q.1 (by omega) done.length (by omega) hv
        omega
    unfold save_schema storeFor
    rw [hschemas]
  simp only [hsave]

theorem ingest_seq_inv (d : PyStr) :
    ∀ (ps done : List (PyStr × PyStr)),
      done.length + ps.length ≤ 9 →
      ((done ++ ps).map Prod.fst).Nodup →
      ingest_seq (storeFor d done) d ps
        = (storeFor d (done ++ ps),
           (List.range ps.length).map (fun i => vTag (done.length + i + 1))) := by
  intro ps
  induction ps with
  | nil =>
    intro done _ _
    simp [ingest_seq]
  | cons p rest ih =>
    intro done hlen hnd
    obtain ⟨ph, psj⟩ := p
    simp only [List.length_cons] at hlen
    have hfresh : ph ∉ done.map Prod.fst := by
      rw [List.map_append] at hnd
      have hdisj := List.disjoint_of_nodup_append hnd
      intro hmem
      exact hdisj hmem (by simp)
    have hstep := ingest_storeFor_step d done ph psj (by omega) hfresh
    have hnd2 : (((done ++ [(ph, psj)]) ++ rest).map Prod.fst).Nodup := by
      rw [List.append_assoc, List.singleton_append]
      exact hnd
    have hih := ih (done ++ [(ph, psj)])
      (by simp only [List.length_append, List.length_singleton]; omega) hnd2
    rw [ingest_seq]
    simp only [hstep, hih]
    refine Prod.ext_iff.mpr ⟨?_, ?_⟩
    · show storeFor d ((done ++ [(ph, psj)]) ++ rest) = storeFor d (done ++ (ph, psj) :: rest)
      rw [List.append_assoc, List.singleton_append]
    · show vTag (done.length + 1) ::
          (List.range rest.length).map (fun i => vTag ((done ++ [(ph, psj)]).length + i + 1))
        = (List.range (rest.length + 1)).map (fun i => vTag (done.length + i + 1))
      rw [List.range_succ_eq_map, List.map_cons, List.map_map]
      congr 1
      refine List.map_congr_left ?_
      intro x _
      simp only [Function.comp_apply, List.length_append, List.length_singleton]
      congr 1
      omega

/-- C3 (amended): for up to nine distinct contents ingested under one
dataset, the assigned versions are `v1, v2, …, vN` in order, `list_versions`
returns exactly that list (so the k-th assigned version appears in position
k and the tags are strictly increasing with no gaps).  Beyond nine versions
the lexicographic sort of `list_versions` breaks positional agreement — see
the counterexample at N = 10. -/
theorem ingest_seq_versions (d : PyStr) (ps : List (PyStr × PyStr))
    (hnd : (ps.map Prod.fst).Nodup) (hlen : ps.length ≤ 9) :
    (ingest_seq emptyStore d ps).2
        = (List.range ps.length).map (fun i => vTag (i + 1)) ∧
    list_versions (ingest_seq emptyStore d ps).1 d
        = (List.range ps.length).map (fun i => vTag (i + 1)) ∧
    List.Pairwise (fun a b => lexLt a b = true) ((ingest_seq emptyStore d ps).2) := by
  have hinv := ingest_seq_inv d ps [] (by simpa using hlen) (by simpa using hnd)
  simp only [List.nil_append, List.length_nil, Nat.zero_add] at hinv
  have hinv2 : ingest_seq emptyStore d ps
      = (storeFor d ps, (List.range ps.length).map (fun i => vTag (i + 1))) := by
    rw [← hinv]
    rfl
  rw [hinv2]
  exact ⟨rfl, list_versions_storeFor d ps hlen, vTags_sorted ps.length (by omega)⟩

/-- Witness for the amended C3: two distinct uploads. -/
theorem ingest_seq_versions_witness :
    (([(pys "h1", pys "s1"), (pys "h2", pys "s2")].map Prod.fst).Nodup ∧
      ([(pys "h1", pys "s1"), (pys "h2", pys "s2")] : List (PyStr × PyStr)).length ≤ 9) ∧
    ((ingest_seq emptyStore (pys "ds") [(pys "h1", pys "s1"), (pys "h2", pys "s2")]).2
        = (List.range 2).map (fun i => vTag (i + 1)) ∧
      list_versions (ingest_seq emptyStore (pys "ds")
          [(pys "h1", pys "s1"), (pys "h2", pys "s2")]).1 (pys "ds")
        = (List.range 2).map (fun i => vTag (i + 1)) ∧
      List.Pairwise (fun a b => lexLt a b = true)
        ((ingest_seq emptyStore (pys "ds") [(pys "h1", pys "s1"), (pys "h2", pys "s2")]).2)) :=
  ⟨⟨by decide, by decide⟩,
   ingest_seq_versions (pys "ds") [(pys "h1", pys "s1"), (pys "h2", pys "s2")]
     (by decide) (by decide)⟩

/-- Counterexample for C3 as stated: after ten distinct ingestions the
second assigned version is `v2`, but position 2 of `list_versions` holds
`v10` (lexicographic sort), so the k-th assigned version does not appear in
position k and the listing is not gap-free in assignment order. -/
theorem version_position_counterexample :
    (ingest_seq emptyStore (pys "ds") tenUploads).2.length = 10 ∧
    (ingest_seq emptyStore (pys "ds") tenUploads).2.get? 1 = some (vTag 2) ∧
    (list_versions (ingest_seq emptyStore (pys "ds") tenUploads).1 (pys "ds")).get? 1
      = some (vTag 10) ∧
    list_versions (ingest_seq emptyStore (pys "ds") tenUploads).1 (pys "ds")
      ≠ (ingest_seq emptyStore (pys "ds") tenUploads).2 := by decide
